import Mathlib

/-
  Verification development for the WeChat SQLite VFS decryption shim
  (src/windows/runner/wechat_vfs.cpp).

  Modelling conventions:
  - C byte buffers become `List Nat` (each element is one byte value);
    paths (C strings) likewise become `List Nat` of character codes.
  - The underlying real file handle is modelled by its `xRead` behaviour:
    a function from (amount, offset) to (status, bytes placed in the buffer).
  - Machine integers: all the offsets/amounts the claims concern are
    non-negative, and for non-negative arguments the C expressions
    `iOfst / PAGE_SIZE`, `(iOfst + iAmt - 1) / PAGE_SIZE` (C division
    truncates toward zero, and for iOfst = 0, iAmt = 0 it yields -1/4096 = 0,
    matching Nat saturating subtraction (0 + 0 - 1 = 0, 0 / 4096 = 0)) and
    `iOfst % PAGE_SIZE` agree with the Nat operations used here.
  - The AES-256-CBC primitive (`aes_decrypt_cbc`, which delegates to the
    Windows CNG collaborator `BCryptDecrypt`) is an external component; it is
    modelled as an abstract structure `AesCbc` whose `decrypt` either fails
    (`none`, the C `false` return) or produces exactly as many plaintext
    bytes as the ciphertext it was given (CBC with no padding scheme).
-/

namespace WeChatVfs

/-- Page layout constants from the source (lines 72-75). -/
def PAGE_SIZE : Nat := 4096

/-- Salt size constant from the source. -/
def SALT_SIZE : Nat := 16

/-- Initialization-vector size constant from the source. -/
def IV_SIZE : Nat := 16

/-- Reserve-region size constant from the source. -/
def RESERVE_SIZE : Nat := 80

/-- SQLite status code SQLITE_OK (source line 14). -/
def SQLITE_OK : Int := 0

/-- SQLite status code SQLITE_ERROR (source line 15). -/
def SQLITE_ERROR : Int := 1

/-- SQLite status code SQLITE_READONLY (source line 16). -/
def SQLITE_READONLY : Int := 8

/-- Key material held per registered database path (struct EncryptionKeys,
source lines 78-81): raw encryption-key bytes and raw MAC-key bytes. -/
structure EncryptionKeys where
  encKey : List Nat
  macKey : List Nat
deriving DecidableEq

/-- Abstract model of the AES-256-CBC decryption primitive
(`aes_decrypt_cbc`, source lines 84-122, delegating to Windows CNG).
`decrypt ciphertext key iv` is `none` when the primitive reports failure and
`some plaintext` on success; CBC decryption with no padding scheme returns
exactly as many bytes as it consumed, recorded by `decrypt_len`. -/
structure AesCbc where
  decrypt : List Nat → List Nat → List Nat → Option (List Nat)
  decrypt_len : ∀ ct key iv pt, decrypt ct key iv = some pt → pt.length = ct.length

/-- Byte-level path normalization (`normalize_path` body, source lines
127-130): a backslash (code 92) becomes a forward slash (code 47), then an
ASCII uppercase letter (codes 65-90) is folded to lowercase. -/
def normalize_char (c : Nat) : Nat :=
  let c1 := if c = 92 then 47 else c
  if 65 ≤ c1 ∧ c1 ≤ 90 then c1 - 65 + 97 else c1

/-- Path normalization (`normalize_path`, source lines 125-132): apply
`normalize_char` to every character of the path. -/
def normalize_path (path : List Nat) : List Nat :=
  path.map normalize_char

/-- Value of one hex-digit character (the `%2x` conversion inside
`hex_to_bytes`, source line 493). The source leaves the byte unassigned when
`sscanf_s` meets a non-hex character; the model is only relied on for
hex-digit input and returns 0 elsewhere. -/
def hexVal (c : Nat) : Nat :=
  if 48 ≤ c ∧ c ≤ 57 then c - 48
  else if 97 ≤ c ∧ c ≤ 102 then c - 97 + 10
  else if 65 ≤ c ∧ c ≤ 70 then c - 65 + 10
  else 0

/-- Hex-string decoder (`hex_to_bytes`, source lines 488-497): consumes the
input two characters at a time (a trailing lone character decodes alone, as
`%2x` reads at most two characters). -/
def hex_to_bytes : List Nat → List Nat
  | c1 :: c2 :: rest => (hexVal c1 * 16 + hexVal c2) :: hex_to_bytes rest
  | [c1] => [hexVal c1]
  | [] => []

/-- The global key registry `g_encryption_keys` (source line 135), a map from
normalized path to key record, modelled extensionally as the lookup function
of the `std::map`. -/
def Registry : Type := List Nat → Option EncryptionKeys

/-- Key registration (`wechat_vfs_register_keys`, source lines 499-513):
normalize the path, decode both hex keys, and store the record under the
normalized path, overwriting any existing entry
(`g_encryption_keys[normalized] = keys`). -/
def wechat_vfs_register_keys (r : Registry) (db_path enc_key_hex mac_key_hex : List Nat) :
    Registry :=
  fun q => if q = normalize_path db_path
    then some ⟨hex_to_bytes enc_key_hex, hex_to_bytes mac_key_hex⟩
    else r q

/-- Key removal (`wechat_vfs_unregister_keys`, source lines 515-520):
normalize the path and erase the entry (`g_encryption_keys.erase`), a no-op
when absent. -/
def wechat_vfs_unregister_keys (r : Registry) (db_path : List Nat) : Registry :=
  fun q => if q = normalize_path db_path then none else r q

/-- Key lookup as performed at open time (`wechat_open`, source lines
355-359): normalize the incoming name and find it in the registry; the open
file's `keys` field is the found record or nothing. -/
def lookup_keys (r : Registry) (zName : List Nat) : Option EncryptionKeys :=
  r (normalize_path zName)

/-- An open file handle (struct WeChatFile, source lines 139-144).
`realRead` models the underlying real file's `xRead` method: given an amount
and an offset it yields the status and the bytes the real file placed into
the destination buffer. `realSize` models the underlying `xFileSize` result
(status, size). `keys` is the optional key-record association established at
open (the source's guard `p->decrypt_cb` at line 179 tests this association:
`keys` is the only decryption-association field the open routine ever
populates). -/
structure WeChatFile where
  realRead : Nat → Nat → Int × List Nat
  realSize : Int × Nat
  keys : Option EncryptionKeys

/-- Semantics of `memcpy(buf + pos, src, src.length)` on a byte buffer:
overwrite exactly `src.length` bytes starting at `pos`, leaving every other
byte of `buf` untouched. -/
def writeAt (buf : List Nat) (pos : Nat) (src : List Nat) : List Nat :=
  buf.take pos ++ src ++ buf.drop (pos + src.length)

/-- Direct delegation of a read to the underlying real file
(`p->real_file->pMethods->xRead(p->real_file, zBuf, iAmt, iOfst)`): the real
file writes its bytes at the start of the caller's buffer and its status is
returned. -/
def xRead_real (f : WeChatFile) (zBuf : List Nat) (iAmt iOfst : Nat) : Int × List Nat :=
  let r := f.realRead iAmt iOfst
  (r.1, writeAt zBuf 0 r.2)

/-- Ciphertext start offset within a page (`int offset = (page_num == 0) ?
SALT_SIZE : 0;`, source line 228). -/
def salt_offset (page_num : Nat) : Nat :=
  if page_num = 0 then SALT_SIZE else 0

/-- Ciphertext length of a page (`int encrypted_len = PAGE_SIZE -
RESERVE_SIZE - offset;`, source line 234). -/
def encrypted_len (page_num : Nat) : Nat :=
  PAGE_SIZE - RESERVE_SIZE - salt_offset page_num

/-- The IV bytes handed to the decryption primitive (source lines 231 and
114-116): `iv = g_encrypted_buffer + PAGE_SIZE - RESERVE_SIZE`, and
`BCryptDecrypt` consumes `IV_SIZE` bytes from that pointer. -/
def page_iv (enc : List Nat) : List Nat :=
  (enc.drop (PAGE_SIZE - RESERVE_SIZE)).take IV_SIZE

/-- The reserve-region bytes of a scratch page as copied by the source
(source lines 244-246): RESERVE_SIZE bytes starting at
`PAGE_SIZE - RESERVE_SIZE`. -/
def reserve_bytes (enc : List Nat) : List Nat :=
  (enc.drop (PAGE_SIZE - RESERVE_SIZE)).take RESERVE_SIZE

/-- The ciphertext region handed to the decryption primitive (source line
235): `encrypted_len` bytes starting at `g_encrypted_buffer + offset`. -/
def ciphertext_region (page_num : Nat) (enc : List Nat) : List Nat :=
  (enc.drop (salt_offset page_num)).take (encrypted_len page_num)

/-- Per-page decryption and reassembly (source lines 227-251): decrypt the
ciphertext region with the registered encryption key and the page's IV; on
primitive failure report failure (the caller turns it into SQLITE_ERROR);
on success the decrypted buffer holds the plaintext (at offset 0, length
`encrypted_len` by `decrypt_len`), then the reserve region copied to offset
`encrypted_len`, then — for page 0 only — SALT_SIZE zero bytes written at
offset `encrypted_len + RESERVE_SIZE`. -/
def decrypt_page (aes : AesCbc) (keys : EncryptionKeys) (page_num : Nat) (enc : List Nat) :
    Option (List Nat) :=
  match aes.decrypt (ciphertext_region page_num enc) keys.encKey (page_iv enc) with
  | none => none
  | some plain =>
    let withReserve := plain ++ reserve_bytes enc
    if page_num = 0 then some (withReserve ++ List.replicate SALT_SIZE 0)
    else some withReserve

/-- The page loop of `wechat_read` (source lines 195-273) over the listed
page numbers. Each iteration reads PAGE_SIZE bytes of the page from the real
file into the scratch buffer (a non-success status is returned immediately,
leaving the caller's buffer as written so far), decrypts and reassembles the
page, and copies `min(bytes left in page, bytes still requested)` bytes into
the caller's buffer, skipping `start_offset` bytes on the start page only.
This loop is only reached with a key record present (guard at source line
179), so the keyless `memcpy` branch at lines 223-225 is unreachable and the
key record is passed in directly. -/
def readLoop (aes : AesCbc) (f : WeChatFile) (keys : EncryptionKeys) (pages : List Nat)
    (start_page start_offset iAmt : Nat) (output : List Nat) (bytes_written : Nat) :
    Int × List Nat :=
  match pages with
  | [] => (SQLITE_OK, output)
  | page_num :: rest =>
    let r := f.realRead PAGE_SIZE (page_num * PAGE_SIZE)
    if r.1 ≠ SQLITE_OK then (r.1, output)
    else
      match decrypt_page aes keys page_num r.2 with
      | none => (SQLITE_ERROR, output)
      | some dec =>
        let copy_offset := if page_num = start_page then start_offset else 0
        let bytes_in_page := PAGE_SIZE - copy_offset
        let bytes_remaining := iAmt - bytes_written
        let bytes_to_copy := if bytes_in_page < bytes_remaining then bytes_in_page
          else bytes_remaining
        readLoop aes f keys rest start_page start_offset iAmt
          (writeAt output bytes_written ((dec.drop copy_offset).take bytes_to_copy))
          (bytes_written + bytes_to_copy)

/-- The read entry point (`wechat_read`, source lines 168-276). With no key
association the request is forwarded verbatim to the real file (source lines
179-181). Otherwise the request is mapped onto the page grid
(`start_page = iOfst / PAGE_SIZE`, `end_page = (iOfst + iAmt - 1) /
PAGE_SIZE`, `start_offset = iOfst % PAGE_SIZE`, source lines 184-186) and the
page loop runs over pages `start_page..end_page` in ascending order. -/
def wechat_read (aes : AesCbc) (f : WeChatFile) (zBuf : List Nat) (iAmt iOfst : Nat) :
    Int × List Nat :=
  match f.keys with
  | none => xRead_real f zBuf iAmt iOfst
  | some keys =>
    let start_page := iOfst / PAGE_SIZE
    let end_page := (iOfst + iAmt - 1) / PAGE_SIZE
    let start_offset := iOfst % PAGE_SIZE
    readLoop aes f keys (List.range' start_page (end_page + 1 - start_page))
      start_page start_offset iAmt zBuf 0

/-- The write entry point (`wechat_write`, source lines 278-280): returns
SQLITE_READONLY unconditionally and performs no operation, so the file state
is returned unchanged. -/
def wechat_write (f : WeChatFile) (zBuf : List Nat) (iAmt iOfst : Nat) : Int × WeChatFile :=
  (SQLITE_READONLY, f)

/-- The truncate entry point (`wechat_truncate`, source lines 282-284):
returns SQLITE_READONLY unconditionally and performs no operation, so the
file state is returned unchanged. -/
def wechat_truncate (f : WeChatFile) (size : Nat) : Int × WeChatFile :=
  (SQLITE_READONLY, f)

/-- The file-size entry point (`wechat_file_size`, source lines 291-294):
forwards to the underlying real file's xFileSize. -/
def wechat_file_size (f : WeChatFile) : Int × Nat :=
  f.realSize

/-! Spec-side definitions, written from the specification's words, used to
compare the source's behaviour against the sentences of the spec. -/

/-- Spec-side: the last IV_SIZE bytes of a PAGE_SIZE-byte scratch page
("the last 16 bytes of the scratch buffer" / "located at the very end of the
reserve"). -/
def spec_iv_last16 (page : List Nat) : List Nat :=
  page.drop (PAGE_SIZE - IV_SIZE)

/-- Spec-side: the trailing RESERVE_SIZE bytes of a page ("every page's
trailing RESERVE_SIZE (80) bytes"). -/
def spec_reserve_region (page : List Nat) : List Nat :=
  page.drop (page.length - RESERVE_SIZE)

/-- Spec-side: the first IV_SIZE bytes of the page's trailing reserve
region. -/
def spec_iv_first16 (page : List Nat) : List Nat :=
  (spec_reserve_region page).take IV_SIZE

/-- Spec-side: two characters are spellings of the same path character when
they are equal, differ only in ASCII letter case, or are both directory
separators (forward slash 47 or backslash 92). -/
def char_equiv (c d : Nat) : Bool :=
  c = d ∨
  (65 ≤ c ∧ c ≤ 90 ∧ d = c + 32) ∨
  (65 ≤ d ∧ d ≤ 90 ∧ c = d + 32) ∨
  ((c = 47 ∨ c = 92) ∧ (d = 47 ∨ d = 92))

/-- Spec-side: two path spellings differ only in ASCII letter case or
separator direction when they have the same length and corresponding
characters are `char_equiv`. -/
def path_equiv (p q : List Nat) : Prop :=
  List.Forall₂ (fun c d => char_equiv c d = true) p q

/-! Derived descriptions of `wechat_read`'s keyed path, used to state the
claims about it. -/

/-- A page of the underlying file is good for a keyed read when the real
file delivers a full PAGE_SIZE-byte page with SQLITE_OK at the page's offset
and the decryption primitive succeeds on it. -/
def goodPage (aes : AesCbc) (f : WeChatFile) (keys : EncryptionKeys) (p : Nat) : Prop :=
  (f.realRead PAGE_SIZE (p * PAGE_SIZE)).1 = SQLITE_OK ∧
  ((f.realRead PAGE_SIZE (p * PAGE_SIZE)).2).length = PAGE_SIZE ∧
  (decrypt_page aes keys p ((f.realRead PAGE_SIZE (p * PAGE_SIZE)).2)).isSome = true

/-- The decrypted page produced for page number `p` of file `f` (meaningful
when `goodPage` holds). -/
def decOf (aes : AesCbc) (f : WeChatFile) (keys : EncryptionKeys) (p : Nat) : List Nat :=
  (decrypt_page aes keys p ((f.realRead PAGE_SIZE (p * PAGE_SIZE)).2)).getD []

/-- Concatenation of the decrypted pages `start, start+1, ..., start+n-1`. -/
def pagesJoin (aes : AesCbc) (f : WeChatFile) (keys : EncryptionKeys) (start n : Nat) :
    List Nat :=
  ((List.range' start n).map (decOf aes f keys)).flatten

/-- The whole decrypted byte stream of the first `n` pages of the file. -/
def stream (aes : AesCbc) (f : WeChatFile) (keys : EncryptionKeys) (n : Nat) : List Nat :=
  pagesJoin aes f keys 0 n

/-! Concrete fixtures used by the claims' witnesses. -/

/-- A concrete decryption primitive for witnesses: it returns the ciphertext
unchanged (trivially length-preserving). -/
def aesId : AesCbc where
  decrypt := fun ct _ _ => some ct
  decrypt_len := fun _ _ _ _ h => by
    injection h with h
    rw [← h]

/-- A concrete key record for witnesses. -/
def zeroKeys : EncryptionKeys :=
  ⟨List.replicate 32 0, List.replicate 32 0⟩

/-- A concrete keyed file whose underlying real file always returns zero
bytes with SQLITE_OK. -/
def zeroFile : WeChatFile where
  realRead := fun amt _ => (SQLITE_OK, List.replicate amt 0)
  realSize := (SQLITE_OK, 8192)
  keys := some zeroKeys

/-- A concrete keyless file for the pass-through witness. -/
def plainFile : WeChatFile where
  realRead := fun amt ofst => (SQLITE_OK, List.replicate amt (ofst % 256))
  realSize := (SQLITE_OK, 8192)
  keys := none

/-- A concrete keyed file whose underlying real file succeeds on page 0 and
fails with status 10 at every later page offset. -/
def failFile : WeChatFile where
  realRead := fun amt ofst => if ofst < PAGE_SIZE then (SQLITE_OK, List.replicate amt 0)
    else (10, [])
  realSize := (SQLITE_OK, 8192)
  keys := some zeroKeys

/-- A concrete scratch page whose reserve region begins with zero bytes but
ends with sixteen 1-bytes. -/
def mixedPage : List Nat :=
  List.replicate (PAGE_SIZE - IV_SIZE) 0 ++ List.replicate IV_SIZE 1

/-- The empty key registry. -/
def emptyRegistry : Registry := fun _ => none

/-- Character codes of the path spelling C:\Data\db.sqlite. -/
def pathWinUpper : List Nat :=
  [67, 58, 92, 68, 97, 116, 97, 92, 100, 98, 46, 115, 113, 108, 105, 116, 101]

/-- Character codes of the path spelling c:/data/DB.sqlite. -/
def pathUnixLower : List Nat :=
  [99, 58, 47, 100, 97, 116, 97, 47, 68, 66, 46, 115, 113, 108, 105, 116, 101]

/-- Character codes of the path /a. -/
def pathA : List Nat := [47, 97]

/-- Character codes of the hex string 01. -/
def hexE : List Nat := [48, 49]

/-- Character codes of the hex string 23. -/
def hexM : List Nat := [50, 51]

/-- Character codes of the hex string ab. -/
def hexE2 : List Nat := [97, 98]

/-- Character codes of the hex string cd. -/
def hexM2 : List Nat := [99, 100]

/-! Helper lemmas about the buffer-write primitive. -/

theorem writeAt_nil (buf : List Nat) (pos : Nat) : writeAt buf pos [] = buf := by
  simp [writeAt]

theorem writeAt_length (buf src : List Nat) (pos : Nat) (h : pos + src.length ≤ buf.length) :
    (writeAt buf pos src).length = buf.length := by
  simp only [writeAt, List.length_append, List.length_take, List.length_drop]
  omega

theorem writeAt_writeAt (buf s1 s2 : List Nat) (pos : Nat) (h : pos ≤ buf.length) :
    writeAt (writeAt buf pos s1) (pos + s1.length) s2 = writeAt buf pos (s1 ++ s2) := by
  have htk : (buf.take pos).length = pos := by
    simp [List.length_take]; omega
  have eq1 : (buf.take pos ++ (s1 ++ buf.drop (pos + s1.length))).take (pos + s1.length) =
      buf.take pos ++ s1 := by
    rw [List.take_append_eq_append_take, htk,
      List.take_of_length_le (l := buf.take pos) (by rw [htk]; omega),
      Nat.add_sub_cancel_left, List.take_append_eq_append_take, List.take_length,
      Nat.sub_self, List.take_zero, List.append_nil]
  have eq2 : (buf.take pos ++ (s1 ++ buf.drop (pos + s1.length))).drop
        (pos + s1.length + s2.length) =
      buf.drop (pos + s1.length + s2.length) := by
    have hn1 : (buf.take pos).drop (pos + s1.length + s2.length) = [] :=
      List.drop_eq_nil_of_le (by rw [htk]; omega)
    have hn2 : s1.drop (pos + s1.length + s2.length - (buf.take pos).length) = [] :=
      List.drop_eq_nil_of_le (by rw [htk]; omega)
    rw [List.drop_append_eq_append_drop, hn1, List.nil_append,
      List.drop_append_eq_append_drop, hn2, List.nil_append, List.drop_drop, htk]
    congr 1
    omega
  simp only [writeAt, List.append_assoc, List.length_append]
  rw [eq1, eq2]
  simp [List.append_assoc, Nat.add_assoc]

/-! Helper lemmas about per-page decryption. -/

theorem ciphertext_region_length (page_num : Nat) (enc : List Nat)
    (h : enc.length = PAGE_SIZE) :
    (ciphertext_region page_num enc).length = encrypted_len page_num := by
  simp only [ciphertext_region, List.length_take, List.length_drop, h,
    encrypted_len, salt_offset, PAGE_SIZE, RESERVE_SIZE, SALT_SIZE]
  by_cases h0 : page_num = 0 <;> simp [h0]

theorem reserve_bytes_length (enc : List Nat) (h : enc.length = PAGE_SIZE) :
    (reserve_bytes enc).length = RESERVE_SIZE := by
  simp only [reserve_bytes, List.length_take, List.length_drop, h,
    PAGE_SIZE, RESERVE_SIZE]
  omega

/-- Structural characterization of a successful page decryption: the
decrypted page is the plaintext, then the reserve bytes, then (for page 0
only) SALT_SIZE zero bytes. -/
theorem decrypt_page_eq (aes : AesCbc) (keys : EncryptionKeys) (page_num : Nat)
    (enc dec : List Nat) (h : decrypt_page aes keys page_num enc = some dec) :
    ∃ plain, aes.decrypt (ciphertext_region page_num enc) keys.encKey (page_iv enc) =
        some plain ∧
      dec = plain ++ reserve_bytes enc ++
        (if page_num = 0 then List.replicate SALT_SIZE 0 else []) := by
  unfold decrypt_page at h
  cases hd : aes.decrypt (ciphertext_region page_num enc) keys.encKey (page_iv enc) with
  | none => rw [hd] at h; exact absurd h (by simp)
  | some plain =>
    refine ⟨plain, rfl, ?_⟩
    rw [hd] at h
    by_cases h0 : page_num = 0
    · simp only [h0, if_pos rfl, if_true, ite_true, List.append_assoc] at h ⊢
      injection h with h
      exact h.symm
    · simp only [if_neg h0, List.append_assoc, List.append_nil] at h ⊢
      injection h with h
      exact h.symm

theorem decrypt_page_length (aes : AesCbc) (keys : EncryptionKeys) (page_num : Nat)
    (enc dec : List Nat) (hlen : enc.length = PAGE_SIZE)
    (h : decrypt_page aes keys page_num enc = some dec) :
    dec.length = PAGE_SIZE := by
  obtain ⟨plain, hp, hdec⟩ := decrypt_page_eq aes keys page_num enc dec h
  have hple : plain.length = (ciphertext_region page_num enc).length :=
    aes.decrypt_len _ _ _ _ hp
  rw [ciphertext_region_length page_num enc hlen] at hple
  have hres := reserve_bytes_length enc hlen
  rw [hdec]
  by_cases h0 : page_num = 0 <;>
    simp_all [encrypted_len, salt_offset, PAGE_SIZE, RESERVE_SIZE, SALT_SIZE]

theorem decOf_length (aes : AesCbc) (f : WeChatFile) (keys : EncryptionKeys) (p : Nat)
    (h : goodPage aes f keys p) : (decOf aes f keys p).length = PAGE_SIZE := by
  obtain ⟨_, hlen, hsome⟩ := h
  obtain ⟨dec, hdec⟩ := Option.isSome_iff_exists.mp hsome
  simp only [decOf, hdec, Option.getD_some]
  exact decrypt_page_length aes keys p _ dec hlen hdec

theorem pagesJoin_zero (aes : AesCbc) (f : WeChatFile) (keys : EncryptionKeys) (p : Nat) :
    pagesJoin aes f keys p 0 = [] := by
  simp [pagesJoin]

theorem pagesJoin_succ (aes : AesCbc) (f : WeChatFile) (keys : EncryptionKeys) (p n : Nat) :
    pagesJoin aes f keys p (n + 1) =
      decOf aes f keys p ++ pagesJoin aes f keys (p + 1) n := by
  simp [pagesJoin, List.range'_succ]

theorem pagesJoin_length (aes : AesCbc) (f : WeChatFile) (keys : EncryptionKeys) :
    ∀ (n p : Nat), (∀ q, p ≤ q → q < p + n → goodPage aes f keys q) →
      (pagesJoin aes f keys p n).length = n * PAGE_SIZE := by
  intro n
  induction n with
  | zero => intro p _; simp [pagesJoin_zero]
  | succ n ih =>
    intro p hgood
    rw [pagesJoin_succ, List.length_append,
      decOf_length aes f keys p (hgood p (Nat.le_refl p) (by omega)),
      ih (p + 1) (fun q h1 h2 => hgood q (by omega) (by omega))]
    ring

theorem pagesJoin_add (aes : AesCbc) (f : WeChatFile) (keys : EncryptionKeys)
    (p m n : Nat) :
    pagesJoin aes f keys p (m + n) =
      pagesJoin aes f keys p m ++ pagesJoin aes f keys (p + m) n := by
  have hr : List.range' p (m + n) = List.range' p m ++ List.range' (p + m) n := by
    rw [Nat.add_comm m n, ← List.range'_append p m n 1, Nat.one_mul]
  simp only [pagesJoin, hr, List.map_append, List.flatten_append]

/-- Splitting a take of a slice of a concatenation at a page boundary. -/
theorem slice_step (A J : List Nat) (co r : Nat) (hco : co ≤ A.length) :
    (A.drop co).take (if A.length - co < r then A.length - co else r) ++
      J.take (r - (A.length - co)) =
    ((A ++ J).drop co).take r := by
  have hd : (A ++ J).drop co = A.drop co ++ J := by
    rw [List.drop_append_eq_append_drop]
    have h0 : co - A.length = 0 := by omega
    rw [h0, List.drop_zero]
  rw [hd, List.take_append_eq_append_take, List.length_drop]
  congr 1
  by_cases hlt : A.length - co < r
  · rw [if_pos hlt, List.take_of_length_le (by rw [List.length_drop]),
      List.take_of_length_le (by rw [List.length_drop]; omega)]
  · rw [if_neg hlt]

/-- Characterization of the page loop when every listed page is good: the
loop succeeds and writes, starting at `bw`, the requested slice of the
concatenated decrypted pages. -/
theorem readLoop_ok (aes : AesCbc) (f : WeChatFile) (keys : EncryptionKeys)
    (start_page start_offset iAmt : Nat) (hso : start_offset ≤ PAGE_SIZE) :
    ∀ (n p : Nat) (buf : List Nat) (bw : Nat),
      start_page ≤ p →
      (∀ q, p ≤ q → q < p + n → goodPage aes f keys q) →
      iAmt ≤ buf.length → bw ≤ iAmt →
      readLoop aes f keys (List.range' p n) start_page start_offset iAmt buf bw =
        (SQLITE_OK,
          writeAt buf bw
            (((pagesJoin aes f keys p n).drop
                (if p = start_page then start_offset else 0)).take (iAmt - bw))) := by
  intro n
  induction n with
  | zero =>
    intro p buf bw _ _ _ _
    simp [readLoop, pagesJoin_zero, writeAt_nil]
  | succ n ih =>
    intro p buf bw hp hgood hbuf hbw
    obtain ⟨hrc, hlen, hsome⟩ := hgood p (Nat.le_refl p) (by omega)
    obtain ⟨dec, hdec⟩ := Option.isSome_iff_exists.mp hsome
    have hdecOf : decOf aes f keys p = dec := by simp [decOf, hdec]
    have hdlen : dec.length = PAGE_SIZE :=
      decrypt_page_length aes keys p _ dec hlen hdec
    have hcond : ¬((f.realRead PAGE_SIZE (p * PAGE_SIZE)).1 ≠ SQLITE_OK) := by
      rw [hrc]; simp
    rw [List.range'_succ]
    simp only [readLoop, if_neg hcond, hdec]
    set co := if p = start_page then start_offset else 0 with hco_def
    have hco : co ≤ PAGE_SIZE := by
      rw [hco_def]; split <;> omega
    set btc := if PAGE_SIZE - co < iAmt - bw then PAGE_SIZE - co else iAmt - bw with hbtc_def
    have hbtc1 : btc ≤ PAGE_SIZE - co := by rw [hbtc_def]; split <;> omega
    have hbtc2 : btc ≤ iAmt - bw := by rw [hbtc_def]; split <;> omega
    have hs1len : ((dec.drop co).take btc).length = btc := by
      rw [List.length_take, List.length_drop, hdlen]
      omega
    rw [ih (p + 1) (writeAt buf bw ((dec.drop co).take btc)) (bw + btc)
      (by omega)
      (fun q h1 h2 => hgood q (by omega) (by omega))
      (by rw [writeAt_length buf ((dec.drop co).take btc) bw (by rw [hs1len]; omega)]
          exact hbuf)
      (by omega)]
    have hp1 : ¬(p + 1 = start_page) := by omega
    rw [if_neg hp1, List.drop_zero]
    have hcomp := writeAt_writeAt buf ((dec.drop co).take btc)
      ((pagesJoin aes f keys (p + 1) n).take (iAmt - (bw + btc))) bw (by omega)
    rw [hs1len] at hcomp
    rw [hcomp]
    congr 2
    rw [pagesJoin_succ, hdecOf]
    have hslice := slice_step dec (pagesJoin aes f keys (p + 1) n) co (iAmt - bw)
      (by rw [hdlen]; exact hco)
    rw [hdlen] at hslice
    rw [← hbtc_def] at hslice
    have hidx : iAmt - (bw + btc) = (iAmt - bw) - (PAGE_SIZE - co) := by
      rw [hbtc_def]; split <;> omega
    rw [hidx]
    exact hslice

/-- Characterization of the page loop when the pages before `q` are good and
the underlying read of page `q` fails: the failing status is returned and the
buffer holds exactly the bytes copied from the pages before `q`. -/
theorem readLoop_fail (aes : AesCbc) (f : WeChatFile) (keys : EncryptionKeys)
    (start_page start_offset iAmt : Nat) (hso : start_offset ≤ PAGE_SIZE) :
    ∀ (n p : Nat) (buf : List Nat) (bw : Nat) (q : Nat),
      start_page ≤ p → p ≤ q → q < p + n →
      (∀ t, p ≤ t → t < q → goodPage aes f keys t) →
      (f.realRead PAGE_SIZE (q * PAGE_SIZE)).1 ≠ SQLITE_OK →
      iAmt ≤ buf.length → bw ≤ iAmt →
      readLoop aes f keys (List.range' p n) start_page start_offset iAmt buf bw =
        ((f.realRead PAGE_SIZE (q * PAGE_SIZE)).1,
          writeAt buf bw
            (((pagesJoin aes f keys p (q - p)).drop
                (if p = start_page then start_offset else 0)).take (iAmt - bw))) := by
  intro n
  induction n with
  | zero =>
    intro p buf bw q _ h1 h2 _ _ _ _
    omega
  | succ n ih =>
    intro p buf bw q hp hpq hqn hgood hfail hbuf hbw
    by_cases hq : q = p
    · subst hq
      rw [List.range'_succ]
      simp only [readLoop, if_pos hfail]
      rw [Nat.sub_self, pagesJoin_zero]
      simp [writeAt_nil]
    · obtain ⟨hrc, hlen, hsome⟩ := hgood p (Nat.le_refl p) (by omega)
      obtain ⟨dec, hdec⟩ := Option.isSome_iff_exists.mp hsome
      have hdecOf : decOf aes f keys p = dec := by simp [decOf, hdec]
      have hdlen : dec.length = PAGE_SIZE :=
        decrypt_page_length aes keys p _ dec hlen hdec
      have hcond : ¬((f.realRead PAGE_SIZE (p * PAGE_SIZE)).1 ≠ SQLITE_OK) := by
        rw [hrc]; simp
      rw [List.range'_succ]
      simp only [readLoop, if_neg hcond, hdec]
      set co := if p = start_page then start_offset else 0 with hco_def
      have hco : co ≤ PAGE_SIZE := by
        rw [hco_def]; split <;> omega
      set btc := if PAGE_SIZE - co < iAmt - bw then PAGE_SIZE - co else iAmt - bw
        with hbtc_def
      have hbtc1 : btc ≤ PAGE_SIZE - co := by rw [hbtc_def]; split <;> omega
      have hbtc2 : btc ≤ iAmt - bw := by rw [hbtc_def]; split <;> omega
      have hs1len : ((dec.drop co).take btc).length = btc := by
        rw [List.length_take, List.length_drop, hdlen]
        omega
      rw [ih (p + 1) (writeAt buf bw ((dec.drop co).take btc)) (bw + btc) q
        (by omega) (by omega) (by omega)
        (fun t h1 h2 => hgood t (by omega) (by omega))
        hfail
        (by rw [writeAt_length buf ((dec.drop co).take btc) bw (by rw [hs1len]; omega)]
            exact hbuf)
        (by omega)]
      have hp1 : ¬(p + 1 = start_page) := by omega
      rw [if_neg hp1, List.drop_zero]
      have hcomp := writeAt_writeAt buf ((dec.drop co).take btc)
        ((pagesJoin aes f keys (p + 1) (q - (p + 1))).take (iAmt - (bw + btc))) bw (by omega)
      rw [hs1len] at hcomp
      rw [hcomp]
      congr 2
      have hqp : q - p = (q - (p + 1)) + 1 := by omega
      rw [hqp, pagesJoin_succ, hdecOf]
      have hslice := slice_step dec (pagesJoin aes f keys (p + 1) (q - (p + 1))) co
        (iAmt - bw) (by rw [hdlen]; exact hco)
      rw [hdlen] at hslice
      rw [← hbtc_def] at hslice
      have hidx : iAmt - (bw + btc) = (iAmt - bw) - (PAGE_SIZE - co) := by
        rw [hbtc_def]; split <;> omega
      rw [hidx]
      exact hslice

/-- Top-level characterization of a keyed read when every intersected page is
good: the read succeeds and writes, at the start of the caller's buffer, the
requested slice of the concatenated decrypted pages of the intersected page
range. -/
theorem wechat_read_ok (aes : AesCbc) (f : WeChatFile) (keys : EncryptionKeys)
    (buf : List Nat) (iAmt iOfst : Nat) (hk : f.keys = some keys)
    (hgood : ∀ q, iOfst / PAGE_SIZE ≤ q → q ≤ (iOfst + iAmt - 1) / PAGE_SIZE →
      goodPage aes f keys q)
    (hbuf : iAmt ≤ buf.length) :
    wechat_read aes f buf iAmt iOfst =
      (SQLITE_OK, writeAt buf 0
        (((pagesJoin aes f keys (iOfst / PAGE_SIZE)
              ((iOfst + iAmt - 1) / PAGE_SIZE + 1 - iOfst / PAGE_SIZE)).drop
            (iOfst % PAGE_SIZE)).take iAmt)) := by
  simp only [wechat_read, hk]
  rw [readLoop_ok aes f keys (iOfst / PAGE_SIZE) (iOfst % PAGE_SIZE) iAmt
    (Nat.le_of_lt (Nat.mod_lt _ (by decide)))
    ((iOfst + iAmt - 1) / PAGE_SIZE + 1 - iOfst / PAGE_SIZE) (iOfst / PAGE_SIZE) buf 0
    (Nat.le_refl _) (fun q h1 h2 => hgood q h1 (by omega)) hbuf (Nat.zero_le _)]
  rw [if_pos rfl, Nat.sub_zero]

/-- The slice of the intersected page range delivered by a keyed read equals
the corresponding slice of the whole decrypted stream of the file. -/
theorem stream_slice (aes : AesCbc) (f : WeChatFile) (keys : EncryptionKeys)
    (N iAmt iOfst : Nat)
    (hN : iOfst + iAmt ≤ N * PAGE_SIZE) (hamt : 0 < iAmt)
    (hgood : ∀ q, q < N → goodPage aes f keys q) :
    ((pagesJoin aes f keys (iOfst / PAGE_SIZE)
        ((iOfst + iAmt - 1) / PAGE_SIZE + 1 - iOfst / PAGE_SIZE)).drop
      (iOfst % PAGE_SIZE)).take iAmt =
    ((stream aes f keys N).drop iOfst).take iAmt := by
  set sp := iOfst / PAGE_SIZE with hsp
  set ep := (iOfst + iAmt - 1) / PAGE_SIZE with hep
  set so := iOfst % PAGE_SIZE with hso
  set n := ep + 1 - sp with hn
  have hA : sp * PAGE_SIZE + so = iOfst := by
    rw [hsp, hso]; simp only [PAGE_SIZE]; omega
  have hB : so < PAGE_SIZE := by
    rw [hso]; simp only [PAGE_SIZE]; omega
  have hspep : sp ≤ ep := by
    rw [hsp, hep]; simp only [PAGE_SIZE]; omega
  have hepN : ep < N := by
    rw [hep]; simp only [PAGE_SIZE] at hN ⊢; omega
  have hcov : so + iAmt ≤ n * PAGE_SIZE := by
    rw [hn, hso, hep, hsp]; simp only [PAGE_SIZE]; omega
  have hsplitA := pagesJoin_add aes f keys 0 sp (N - sp)
  rw [show sp + (N - sp) = N from by omega, Nat.zero_add] at hsplitA
  have hsplitB := pagesJoin_add aes f keys sp n (N - sp - n)
  rw [show n + (N - sp - n) = N - sp from by omega] at hsplitB
  have hlenA : (pagesJoin aes f keys 0 sp).length = sp * PAGE_SIZE :=
    pagesJoin_length aes f keys sp 0 (fun q hq1 hq2 => hgood q (by omega))
  have hlenn : (pagesJoin aes f keys sp n).length = n * PAGE_SIZE :=
    pagesJoin_length aes f keys n sp (fun q hq1 hq2 => hgood q (by omega))
  have hnilA : (pagesJoin aes f keys 0 sp).drop iOfst = [] :=
    List.drop_eq_nil_of_le (by rw [hlenA]; omega)
  rw [stream, hsplitA, List.drop_append_eq_append_drop, hlenA, hnilA,
    List.nil_append, show iOfst - sp * PAGE_SIZE = so from by omega,
    hsplitB, List.drop_append_eq_append_drop, hlenn,
    List.take_append_eq_append_take, List.length_drop, hlenn,
    show iAmt - (n * PAGE_SIZE - so) = 0 from by omega, List.take_zero, List.append_nil]

/-- A keyed read over good pages delivers a slice of the whole decrypted
stream, independently of how the request is split. -/
theorem wechat_read_stream (aes : AesCbc) (f : WeChatFile) (keys : EncryptionKeys)
    (buf : List Nat) (N iAmt iOfst : Nat) (hk : f.keys = some keys)
    (hN : iOfst + iAmt ≤ N * PAGE_SIZE) (hamt : 0 < iAmt)
    (hgood : ∀ q, q < N → goodPage aes f keys q) (hbuf : iAmt ≤ buf.length) :
    wechat_read aes f buf iAmt iOfst =
      (SQLITE_OK, writeAt buf 0 (((stream aes f keys N).drop iOfst).take iAmt)) := by
  have hepN : (iOfst + iAmt - 1) / PAGE_SIZE < N := by
    simp only [PAGE_SIZE] at hN ⊢; omega
  rw [wechat_read_ok aes f keys buf iAmt iOfst hk
    (fun q h1 h2 => hgood q (by omega)) hbuf]
  rw [stream_slice aes f keys N iAmt iOfst hN hamt hgood]

/-! Evaluation helpers for the concrete fixtures. -/

theorem mixedPage_length : mixedPage.length = PAGE_SIZE := by
  rw [mixedPage, List.length_append, List.length_replicate, List.length_replicate]
  decide

theorem page_iv_mixedPage : page_iv mixedPage = List.replicate IV_SIZE 0 := by
  rw [page_iv, mixedPage, List.drop_append_eq_append_drop, List.drop_replicate,
    List.length_replicate, List.drop_replicate, List.take_append_eq_append_take,
    List.take_replicate, List.length_replicate, List.take_replicate]
  decide

theorem spec_iv_last16_mixedPage : spec_iv_last16 mixedPage = List.replicate IV_SIZE 1 := by
  rw [spec_iv_last16, mixedPage, List.drop_append_eq_append_drop, List.drop_replicate,
    List.length_replicate, List.drop_replicate]
  decide

theorem reserve_bytes_replicate :
    reserve_bytes (List.replicate PAGE_SIZE 0) = List.replicate RESERVE_SIZE 0 := by
  rw [reserve_bytes, List.drop_replicate, List.take_replicate]
  decide

theorem ciphertext_region_replicate (n : Nat) :
    ciphertext_region n (List.replicate PAGE_SIZE 0) =
      List.replicate (encrypted_len n) 0 := by
  rw [ciphertext_region, List.drop_replicate, List.take_replicate]
  congr 1
  rw [encrypted_len, salt_offset]
  split <;> decide

theorem decrypt_page_zeroPage (n : Nat) :
    decrypt_page aesId zeroKeys n (List.replicate PAGE_SIZE 0) =
      some (List.replicate PAGE_SIZE 0) := by
  have hs : aesId.decrypt (List.replicate (encrypted_len n) 0)
      zeroKeys.encKey (page_iv (List.replicate PAGE_SIZE 0)) =
      some (List.replicate (encrypted_len n) 0) := rfl
  simp only [decrypt_page, ciphertext_region_replicate, hs, reserve_bytes_replicate,
    ← List.replicate_add]
  by_cases h0 : n = 0
  · rw [if_pos h0, h0]
    rw [show encrypted_len 0 + RESERVE_SIZE + SALT_SIZE = PAGE_SIZE from by decide]
  · rw [if_neg h0]
    have he : encrypted_len n = PAGE_SIZE - RESERVE_SIZE := by
      rw [encrypted_len, salt_offset, if_neg h0, Nat.sub_zero]
    rw [he, show PAGE_SIZE - RESERVE_SIZE + RESERVE_SIZE = PAGE_SIZE from by decide]

theorem zeroFile_good (q : Nat) : goodPage aesId zeroFile zeroKeys q := by
  refine ⟨rfl, ?_, ?_⟩
  · rw [show (zeroFile.realRead PAGE_SIZE (q * PAGE_SIZE)).2 =
      List.replicate PAGE_SIZE 0 from rfl, List.length_replicate]
  · rw [show (zeroFile.realRead PAGE_SIZE (q * PAGE_SIZE)).2 =
      List.replicate PAGE_SIZE 0 from rfl, decrypt_page_zeroPage]
    rfl

theorem failFile_good0 : goodPage aesId failFile zeroKeys 0 := by
  refine ⟨rfl, ?_, ?_⟩
  · rw [show (failFile.realRead PAGE_SIZE (0 * PAGE_SIZE)).2 =
      List.replicate PAGE_SIZE 0 from rfl, List.length_replicate]
  · rw [show (failFile.realRead PAGE_SIZE (0 * PAGE_SIZE)).2 =
      List.replicate PAGE_SIZE 0 from rfl, decrypt_page_zeroPage]
    rfl

theorem takeWriteAt (buf S : List Nat) (amt : Nat) (h : S.length = amt) :
    (writeAt buf 0 S).take amt = S := by
  subst h
  simp [writeAt, List.take_append_eq_append_take]

theorem slice_len (T : List Nat) (iOfst amt : Nat) (h : iOfst + amt ≤ T.length) :
    ((T.drop iOfst).take amt).length = amt := by
  rw [List.length_take, List.length_drop]
  omega

/-! The claims. -/

/-- C1 is false as stated: on the concrete PAGE_SIZE-byte scratch page
`mixedPage` the 16 IV bytes handed to the decryption engine (`page_iv`, the
bytes the source takes from `PAGE_SIZE - RESERVE_SIZE` onward) differ from
the last 16 bytes of the scratch page. -/
theorem claim_C1_counterexample :
    mixedPage.length = PAGE_SIZE ∧ page_iv mixedPage ≠ spec_iv_last16 mixedPage := by
  refine ⟨mixedPage_length, ?_⟩
  rw [page_iv_mixedPage, spec_iv_last16_mixedPage]
  decide

/-- C1 (amended): for every PAGE_SIZE-byte scratch page processed by a keyed
read, the 16-byte initialization vector passed to the decryption engine is
the FIRST 16 bytes of the page's trailing RESERVE_SIZE-byte reserve region
(bytes PAGE_SIZE-80 .. PAGE_SIZE-65 of the page), not the last 16 bytes of
the page. -/
theorem claim_C1_amended (enc : List Nat) (h : enc.length = PAGE_SIZE) :
    page_iv enc = spec_iv_first16 enc ∧ (page_iv enc).length = IV_SIZE := by
  constructor
  · rw [page_iv, spec_iv_first16, spec_reserve_region, h]
  · rw [page_iv, List.length_take, List.length_drop, h]
    decide

/-- Witness for C1 (amended) at the concrete page `mixedPage`. -/
theorem claim_C1_amended_witness :
    mixedPage.length = PAGE_SIZE ∧
    (page_iv mixedPage = spec_iv_first16 mixedPage ∧
      (page_iv mixedPage).length = IV_SIZE) :=
  ⟨mixedPage_length, claim_C1_amended mixedPage mixedPage_length⟩

/-- C2: a read on an open file with no associated key record is forwarded
verbatim (same buffer, amount and offset) to the real underlying file, whose
status is returned unchanged; no page translation or decryption occurs. -/
theorem claim_C2 (aes : AesCbc) (f : WeChatFile) (zBuf : List Nat) (iAmt iOfst : Nat)
    (h : f.keys = none) :
    wechat_read aes f zBuf iAmt iOfst = xRead_real f zBuf iAmt iOfst ∧
    (wechat_read aes f zBuf iAmt iOfst).1 = (f.realRead iAmt iOfst).1 := by
  constructor
  · simp only [wechat_read, h]
  · simp only [wechat_read, h, xRead_real]

/-- Witness for C2 at a concrete keyless file. -/
theorem claim_C2_witness :
    plainFile.keys = none ∧
    (wechat_read aesId plainFile (List.replicate 8 9) 8 4 =
        xRead_real plainFile (List.replicate 8 9) 8 4 ∧
      (wechat_read aesId plainFile (List.replicate 8 9) 8 4).1 =
        (plainFile.realRead 8 4).1) :=
  ⟨rfl, claim_C2 aesId plainFile (List.replicate 8 9) 8 4 rfl⟩

/-- C3: on every PAGE_SIZE-byte scratch page decrypted by a keyed read, the
ciphertext region handed to the engine has length PAGE_SIZE - RESERVE_SIZE -
SALT_SIZE (4000) for page 0 and PAGE_SIZE - RESERVE_SIZE (4016) for every
later page, and the reassembled decrypted page is exactly PAGE_SIZE (4096)
bytes. -/
theorem claim_C3 (aes : AesCbc) (keys : EncryptionKeys) (page_num : Nat)
    (enc dec : List Nat) (hlen : enc.length = PAGE_SIZE)
    (hdec : decrypt_page aes keys page_num enc = some dec) :
    (ciphertext_region page_num enc).length =
      (if page_num = 0 then PAGE_SIZE - RESERVE_SIZE - SALT_SIZE
        else PAGE_SIZE - RESERVE_SIZE) ∧
    dec.length = PAGE_SIZE := by
  refine ⟨?_, decrypt_page_length aes keys page_num enc dec hlen hdec⟩
  rw [ciphertext_region_length page_num enc hlen, encrypted_len, salt_offset]
  by_cases h0 : page_num = 0 <;> simp [h0]

/-- Witness for C3 at concrete pages 0 and 1 of an all-zero page with the
identity cipher. -/
theorem claim_C3_witness :
    (List.replicate PAGE_SIZE (0 : Nat)).length = PAGE_SIZE ∧
    decrypt_page aesId zeroKeys 0 (List.replicate PAGE_SIZE 0) =
      some (List.replicate PAGE_SIZE 0) ∧
    decrypt_page aesId zeroKeys 1 (List.replicate PAGE_SIZE 0) =
      some (List.replicate PAGE_SIZE 0) ∧
    (ciphertext_region 0 (List.replicate PAGE_SIZE 0)).length =
      PAGE_SIZE - RESERVE_SIZE - SALT_SIZE ∧
    (ciphertext_region 1 (List.replicate PAGE_SIZE 0)).length =
      PAGE_SIZE - RESERVE_SIZE ∧
    (List.replicate PAGE_SIZE (0 : Nat)).length = PAGE_SIZE := by
  refine ⟨List.length_replicate _ _, decrypt_page_zeroPage 0, decrypt_page_zeroPage 1,
    ?_, ?_, ?_⟩
  · have h := claim_C3 aesId zeroKeys 0 (List.replicate PAGE_SIZE 0)
      (List.replicate PAGE_SIZE 0) (List.length_replicate _ _) (decrypt_page_zeroPage 0)
    simpa using h.1
  · have h := claim_C3 aesId zeroKeys 1 (List.replicate PAGE_SIZE 0)
      (List.replicate PAGE_SIZE 0) (List.length_replicate _ _) (decrypt_page_zeroPage 1)
    simpa using h.1
  · have h := claim_C3 aesId zeroKeys 1 (List.replicate PAGE_SIZE 0)
      (List.replicate PAGE_SIZE 0) (List.length_replicate _ _) (decrypt_page_zeroPage 1)
    exact h.2

/-- C4: reassembly of a decrypted page places the plaintext first (exactly
the ciphertext-region length), then the untouched reserve region copied
after it; for page 0 exactly SALT_SIZE zero bytes follow, and for every
later page nothing is appended after the reserve. -/
theorem claim_C4 (aes : AesCbc) (keys : EncryptionKeys) (page_num : Nat)
    (enc dec : List Nat) (hlen : enc.length = PAGE_SIZE)
    (hdec : decrypt_page aes keys page_num enc = some dec) :
    ∃ plain,
      aes.decrypt (ciphertext_region page_num enc) keys.encKey (page_iv enc) =
        some plain ∧
      plain.length = encrypted_len page_num ∧
      dec = plain ++ reserve_bytes enc ++
        (if page_num = 0 then List.replicate SALT_SIZE 0 else []) := by
  obtain ⟨plain, hp, he⟩ := decrypt_page_eq aes keys page_num enc dec hdec
  exact ⟨plain, hp,
    by rw [aes.decrypt_len _ _ _ _ hp, ciphertext_region_length page_num enc hlen], he⟩

/-- Witness for C4 at concrete page 1 of an all-zero page with the identity
cipher. -/
theorem claim_C4_witness :
    (List.replicate PAGE_SIZE (0 : Nat)).length = PAGE_SIZE ∧
    decrypt_page aesId zeroKeys 1 (List.replicate PAGE_SIZE 0) =
      some (List.replicate PAGE_SIZE 0) ∧
    ∃ plain,
      aesId.decrypt (ciphertext_region 1 (List.replicate PAGE_SIZE 0))
          zeroKeys.encKey (page_iv (List.replicate PAGE_SIZE 0)) = some plain ∧
      plain.length = encrypted_len 1 ∧
      List.replicate PAGE_SIZE (0 : Nat) =
        plain ++ reserve_bytes (List.replicate PAGE_SIZE 0) ++
          (if (1 : Nat) = 0 then List.replicate SALT_SIZE 0 else []) :=
  ⟨List.length_replicate _ _, decrypt_page_zeroPage 1,
    claim_C4 aesId zeroKeys 1 (List.replicate PAGE_SIZE 0) (List.replicate PAGE_SIZE 0)
      (List.length_replicate _ _) (decrypt_page_zeroPage 1)⟩

/-- C7: every write call and every truncate call, on a file with or without
a registered key, returns the fixed read-only status SQLITE_READONLY
unconditionally, performs no operation on the file state, and leaves the
reported file size unchanged. -/
theorem claim_C7 (f : WeChatFile) (zBuf : List Nat) (iAmt iOfst size : Nat) :
    wechat_write f zBuf iAmt iOfst = (SQLITE_READONLY, f) ∧
    wechat_truncate f size = (SQLITE_READONLY, f) ∧
    wechat_file_size (wechat_write f zBuf iAmt iOfst).2 = wechat_file_size f ∧
    wechat_file_size (wechat_truncate f size).2 = wechat_file_size f :=
  ⟨rfl, rfl, rfl, rfl⟩

/-- C5: for a keyed read over good pages the delivered bytes depend only on
the underlying byte range: a request split into two adjacent requests yields
the same concatenated output as the single request; in particular a read of
(offset = K*PAGE_SIZE + PAGE_SIZE - 10, length 20) returns the last 10
decrypted bytes of page K followed by the first 10 decrypted bytes of page
K+1. -/
theorem claim_C5 (aes : AesCbc) (f : WeChatFile) (keys : EncryptionKeys)
    (b b1 b2 b3 : List Nat) (N a1 a2 iOfst K : Nat)
    (hk : f.keys = some keys) (h1 : 0 < a1) (h2 : 0 < a2)
    (hN : iOfst + a1 + a2 ≤ N * PAGE_SIZE)
    (hgood : ∀ q, q < N → goodPage aes f keys q)
    (hb : a1 + a2 ≤ b.length) (hb1 : a1 ≤ b1.length) (hb2 : a2 ≤ b2.length)
    (hb3 : 20 ≤ b3.length) (hKN : K + 2 ≤ N) :
    ((wechat_read aes f b (a1 + a2) iOfst).2.take (a1 + a2) =
      (wechat_read aes f b1 a1 iOfst).2.take a1 ++
        (wechat_read aes f b2 a2 (iOfst + a1)).2.take a2) ∧
    (wechat_read aes f b3 20 (K * PAGE_SIZE + (PAGE_SIZE - 10))).2.take 20 =
      (decOf aes f keys K).drop (PAGE_SIZE - 10) ++
        (decOf aes f keys (K + 1)).take 10 := by
  have hslen : (stream aes f keys N).length = N * PAGE_SIZE :=
    pagesJoin_length aes f keys N 0 (fun q hq1 hq2 => hgood q (by omega))
  constructor
  · rw [wechat_read_stream aes f keys b N (a1 + a2) iOfst hk (by omega) (by omega)
        hgood hb,
      wechat_read_stream aes f keys b1 N a1 iOfst hk (by omega) h1 hgood hb1,
      wechat_read_stream aes f keys b2 N a2 (iOfst + a1) hk (by omega) h2 hgood hb2]
    simp only []
    rw [takeWriteAt b _ _ (slice_len _ _ _ (by rw [hslen]; omega)),
      takeWriteAt b1 _ _ (slice_len _ _ _ (by rw [hslen]; omega)),
      takeWriteAt b2 _ _ (slice_len _ _ _ (by rw [hslen]; omega))]
    rw [List.take_add, List.drop_drop]
  · have hK1 : K < N := by omega
    have hK2 : K + 1 < N := by omega
    have hdK := decOf_length aes f keys K (hgood K hK1)
    have hdK1 := decOf_length aes f keys (K + 1) (hgood (K + 1) hK2)
    have hsp : (K * PAGE_SIZE + (PAGE_SIZE - 10)) / PAGE_SIZE = K := by
      simp only [PAGE_SIZE]; omega
    have hep : (K * PAGE_SIZE + (PAGE_SIZE - 10) + 20 - 1) / PAGE_SIZE = K + 1 := by
      simp only [PAGE_SIZE]; omega
    have hso : (K * PAGE_SIZE + (PAGE_SIZE - 10)) % PAGE_SIZE = PAGE_SIZE - 10 := by
      simp only [PAGE_SIZE]; omega
    rw [wechat_read_ok aes f keys b3 20 (K * PAGE_SIZE + (PAGE_SIZE - 10)) hk
      (fun q hq1 hq2 => hgood q (by rw [hsp] at hq1; rw [hep] at hq2; omega)) hb3]
    rw [hsp, hep, hso, show K + 1 + 1 - K = 2 from by omega]
    have hjoin : pagesJoin aes f keys K 2 =
        decOf aes f keys K ++ decOf aes f keys (K + 1) := by
      rw [pagesJoin, show List.range' K 2 = [K, K + 1] from rfl]
      simp
    rw [hjoin]
    simp only []
    rw [takeWriteAt b3 _ 20 (slice_len _ _ _
      (by rw [List.length_append, hdK, hdK1]; simp only [PAGE_SIZE]; omega))]
    rw [List.drop_append_eq_append_drop, hdK,
      show PAGE_SIZE - 10 - PAGE_SIZE = 0 from by decide, List.drop_zero,
      List.take_append_eq_append_take, List.length_drop, hdK,
      List.take_of_length_le (by rw [List.length_drop, hdK]; decide),
      show 20 - (PAGE_SIZE - (PAGE_SIZE - 10)) = 10 from by decide]

/-- Witness for C5: a concrete two-page all-zero keyed file, with the split
(offset = PAGE_SIZE - 10, lengths 10 and 10) against the single request
(offset = PAGE_SIZE - 10, length 20), which also spans pages 0 and 1. -/
theorem claim_C5_witness :
    ((wechat_read aesId zeroFile (List.replicate 20 7) (10 + 10) (PAGE_SIZE - 10)).2.take
        (10 + 10) =
      (wechat_read aesId zeroFile (List.replicate 10 7) 10 (PAGE_SIZE - 10)).2.take 10 ++
        (wechat_read aesId zeroFile (List.replicate 10 7) 10
            (PAGE_SIZE - 10 + 10)).2.take 10) ∧
    (wechat_read aesId zeroFile (List.replicate 20 7) 20
        (0 * PAGE_SIZE + (PAGE_SIZE - 10))).2.take 20 =
      (decOf aesId zeroFile zeroKeys 0).drop (PAGE_SIZE - 10) ++
        (decOf aesId zeroFile zeroKeys (0 + 1)).take 10 :=
  claim_C5 aesId zeroFile zeroKeys (List.replicate 20 7) (List.replicate 10 7)
    (List.replicate 10 7) (List.replicate 20 7) 2 10 10 (PAGE_SIZE - 10) 0 rfl
    (by decide) (by decide) (by decide) (fun q _ => zeroFile_good q)
    (by rw [List.length_replicate]) (by rw [List.length_replicate])
    (by rw [List.length_replicate]) (by rw [List.length_replicate]) (by decide)

/-- C6: during a keyed read, if the underlying page read of some intersected
page q returns a non-success status while all earlier intersected pages are
good, that status is returned to the caller unchanged and the caller's
buffer holds exactly the bytes already copied from the pages before q. -/
theorem claim_C6 (aes : AesCbc) (f : WeChatFile) (keys : EncryptionKeys)
    (buf : List Nat) (iAmt iOfst q : Nat) (hk : f.keys = some keys)
    (hq1 : iOfst / PAGE_SIZE ≤ q) (hq2 : q ≤ (iOfst + iAmt - 1) / PAGE_SIZE)
    (hgood : ∀ t, iOfst / PAGE_SIZE ≤ t → t < q → goodPage aes f keys t)
    (hfail : (f.realRead PAGE_SIZE (q * PAGE_SIZE)).1 ≠ SQLITE_OK)
    (hbuf : iAmt ≤ buf.length) :
    wechat_read aes f buf iAmt iOfst =
      ((f.realRead PAGE_SIZE (q * PAGE_SIZE)).1,
        writeAt buf 0
          (((pagesJoin aes f keys (iOfst / PAGE_SIZE) (q - iOfst / PAGE_SIZE)).drop
              (iOfst % PAGE_SIZE)).take iAmt)) := by
  simp only [wechat_read, hk]
  rw [readLoop_fail aes f keys (iOfst / PAGE_SIZE) (iOfst % PAGE_SIZE) iAmt
    (Nat.le_of_lt (Nat.mod_lt _ (by decide)))
    ((iOfst + iAmt - 1) / PAGE_SIZE + 1 - iOfst / PAGE_SIZE) (iOfst / PAGE_SIZE) buf 0 q
    (Nat.le_refl _) hq1 (by omega) hgood hfail hbuf (Nat.zero_le _)]
  rw [if_pos rfl, Nat.sub_zero]

/-- Witness for C6: a keyed file whose page 0 read succeeds and whose page 1
read fails with status 10; a request for the first 8192 bytes returns
status 10 with the decrypted page 0 already in the buffer. -/
theorem claim_C6_witness :
    (failFile.realRead PAGE_SIZE (1 * PAGE_SIZE)).1 = 10 ∧
    wechat_read aesId failFile (List.replicate 8192 7) 8192 0 =
      ((failFile.realRead PAGE_SIZE (1 * PAGE_SIZE)).1,
        writeAt (List.replicate 8192 7) 0
          (((pagesJoin aesId failFile zeroKeys (0 / PAGE_SIZE) (1 - 0 / PAGE_SIZE)).drop
              (0 % PAGE_SIZE)).take 8192)) := by
  refine ⟨rfl, ?_⟩
  exact claim_C6 aesId failFile zeroKeys (List.replicate 8192 7) 8192 0 1 rfl
    (by decide) (by decide)
    (fun t ht1 ht2 => by
      have h0 : t = 0 := by omega
      rw [h0]
      exact failFile_good0)
    (by decide) (by rw [List.length_replicate])

/-- C10: a successful keyed read of amount iAmt > 0 writes exactly iAmt
bytes at the start of the caller's buffer — the delivered slice has length
exactly iAmt and every buffer byte at index ≥ iAmt is left untouched. -/
theorem claim_C10 (aes : AesCbc) (f : WeChatFile) (keys : EncryptionKeys)
    (buf : List Nat) (iAmt iOfst : Nat) (hk : f.keys = some keys) (hamt : 0 < iAmt)
    (hgood : ∀ q, iOfst / PAGE_SIZE ≤ q → q ≤ (iOfst + iAmt - 1) / PAGE_SIZE →
      goodPage aes f keys q)
    (hbuf : iAmt ≤ buf.length) :
    wechat_read aes f buf iAmt iOfst =
      (SQLITE_OK,
        (((pagesJoin aes f keys (iOfst / PAGE_SIZE)
              ((iOfst + iAmt - 1) / PAGE_SIZE + 1 - iOfst / PAGE_SIZE)).drop
            (iOfst % PAGE_SIZE)).take iAmt) ++ buf.drop iAmt) ∧
    ((((pagesJoin aes f keys (iOfst / PAGE_SIZE)
          ((iOfst + iAmt - 1) / PAGE_SIZE + 1 - iOfst / PAGE_SIZE)).drop
        (iOfst % PAGE_SIZE)).take iAmt)).length = iAmt := by
  have hjoin : (pagesJoin aes f keys (iOfst / PAGE_SIZE)
      ((iOfst + iAmt - 1) / PAGE_SIZE + 1 - iOfst / PAGE_SIZE)).length =
      ((iOfst + iAmt - 1) / PAGE_SIZE + 1 - iOfst / PAGE_SIZE) * PAGE_SIZE :=
    pagesJoin_length aes f keys _ _ (fun t ht1 ht2 => hgood t ht1 (by omega))
  have hSlen : (((pagesJoin aes f keys (iOfst / PAGE_SIZE)
      ((iOfst + iAmt - 1) / PAGE_SIZE + 1 - iOfst / PAGE_SIZE)).drop
        (iOfst % PAGE_SIZE)).take iAmt).length = iAmt := by
    rw [List.length_take, List.length_drop, hjoin]
    have hcov : iOfst % PAGE_SIZE + iAmt ≤
        ((iOfst + iAmt - 1) / PAGE_SIZE + 1 - iOfst / PAGE_SIZE) * PAGE_SIZE := by
      simp only [PAGE_SIZE]; omega
    omega
  refine ⟨?_, hSlen⟩
  rw [wechat_read_ok aes f keys buf iAmt iOfst hk hgood hbuf, writeAt, hSlen,
    List.take_zero, List.nil_append, Nat.zero_add]

/-- Witness for C10: an all-zero keyed file, reading 10 bytes that straddle
the boundary between pages 0 and 1 into a 16-byte buffer. -/
theorem claim_C10_witness :
    wechat_read aesId zeroFile (List.replicate 16 7) 10 4090 =
      (SQLITE_OK,
        (((pagesJoin aesId zeroFile zeroKeys (4090 / PAGE_SIZE)
              ((4090 + 10 - 1) / PAGE_SIZE + 1 - 4090 / PAGE_SIZE)).drop
            (4090 % PAGE_SIZE)).take 10) ++ (List.replicate 16 7).drop 10) ∧
    ((((pagesJoin aesId zeroFile zeroKeys (4090 / PAGE_SIZE)
          ((4090 + 10 - 1) / PAGE_SIZE + 1 - 4090 / PAGE_SIZE)).drop
        (4090 % PAGE_SIZE)).take 10)).length = 10 :=
  claim_C10 aesId zeroFile zeroKeys (List.replicate 16 7) 10 4090 rfl (by decide)
    (fun q _ _ => zeroFile_good q) (by rw [List.length_replicate]; decide)

theorem char_equiv_normalize (c d : Nat) (h : char_equiv c d = true) :
    normalize_char c = normalize_char d := by
  rw [char_equiv] at h
  have hp := of_decide_eq_true h
  simp only [normalize_char]
  rcases hp with hp | ⟨h1, h2, h3⟩ | ⟨h1, h2, h3⟩ | ⟨h1, h2⟩
  · rw [hp]
  · subst h3; split_ifs <;> omega
  · subst h3; split_ifs <;> omega
  · rcases h1 with h1 | h1 <;> rcases h2 with h2 | h2 <;> subst h1 <;> subst h2 <;>
      split_ifs <;> omega

theorem path_equiv_normalize (p q : List Nat) (h : path_equiv p q) :
    normalize_path p = normalize_path q := by
  induction h with
  | nil => rfl
  | cons hcd _ ih =>
    simp only [normalize_path, List.map_cons] at ih ⊢
    rw [char_equiv_normalize _ _ hcd, ih]

/-- C8: path normalization is applied identically at registration and at
lookup, so two path spellings differing only in ASCII letter case or
separator direction normalize identically, and registering a key record
under one spelling makes the open-time lookup of the other spelling resolve
to that record. -/
theorem claim_C8 (r : Registry) (p1 p2 e m : List Nat) (h : path_equiv p1 p2) :
    normalize_path p1 = normalize_path p2 ∧
    lookup_keys (wechat_vfs_register_keys r p1 e m) p2 =
      some ⟨hex_to_bytes e, hex_to_bytes m⟩ := by
  have hn := path_equiv_normalize p1 p2 h
  refine ⟨hn, ?_⟩
  simp [lookup_keys, wechat_vfs_register_keys, hn.symm]

/-- Witness for C8 at the concrete spellings C:\Data\db.sqlite and
c:/data/DB.sqlite, starting from the empty registry. -/
theorem claim_C8_witness :
    path_equiv pathWinUpper pathUnixLower ∧
    (normalize_path pathWinUpper = normalize_path pathUnixLower ∧
      lookup_keys (wechat_vfs_register_keys emptyRegistry pathWinUpper hexE hexM)
          pathUnixLower = some ⟨hex_to_bytes hexE, hex_to_bytes hexM⟩) :=
  ⟨by unfold path_equiv; decide,
    claim_C8 emptyRegistry pathWinUpper pathUnixLower hexE hexM
      (by unfold path_equiv; decide)⟩

/-- C9: registering keys never fails and overwrites any existing record for
the same normalized path (a later registration fully determines the registry
entry lookups see); unregistering removes the record so lookups of that path
find nothing; and unregistering a path that is absent leaves the registry
pointwise unchanged. -/
theorem claim_C9 (r : Registry) (p e m e2 m2 q : List Nat) :
    lookup_keys (wechat_vfs_register_keys r p e m) p =
      some ⟨hex_to_bytes e, hex_to_bytes m⟩ ∧
    wechat_vfs_register_keys (wechat_vfs_register_keys r p e2 m2) p e m q =
      wechat_vfs_register_keys r p e m q ∧
    lookup_keys (wechat_vfs_unregister_keys r p) p = none ∧
    (lookup_keys r p = none → wechat_vfs_unregister_keys r p q = r q) := by
  refine ⟨?_, ?_, ?_, ?_⟩
  · simp [lookup_keys, wechat_vfs_register_keys]
  · by_cases hq : q = normalize_path p <;> simp [wechat_vfs_register_keys, hq]
  · simp [lookup_keys, wechat_vfs_unregister_keys]
  · intro habs
    rw [lookup_keys] at habs
    by_cases hq : q = normalize_path p <;> simp [wechat_vfs_unregister_keys, hq, habs]

/-- Witness for C9 at a concrete path and hex keys over the empty registry,
with the absence hypothesis of the final clause discharged. -/
theorem claim_C9_witness :
    lookup_keys (wechat_vfs_register_keys emptyRegistry pathA hexE hexM) pathA =
      some ⟨hex_to_bytes hexE, hex_to_bytes hexM⟩ ∧
    wechat_vfs_register_keys (wechat_vfs_register_keys emptyRegistry pathA hexE2 hexM2)
        pathA hexE hexM pathA =
      wechat_vfs_register_keys emptyRegistry pathA hexE hexM pathA ∧
    lookup_keys (wechat_vfs_unregister_keys emptyRegistry pathA) pathA = none ∧
    wechat_vfs_unregister_keys emptyRegistry pathA pathA = emptyRegistry pathA :=
  ⟨(claim_C9 emptyRegistry pathA hexE hexM hexE2 hexM2 pathA).1,
    (claim_C9 emptyRegistry pathA hexE hexM hexE2 hexM2 pathA).2.1,
    (claim_C9 emptyRegistry pathA hexE hexM hexE2 hexM2 pathA).2.2.1,
    (claim_C9 emptyRegistry pathA hexE hexM hexE2 hexM2 pathA).2.2.2 rfl⟩

end WeChatVfs
